import Mathlib

/-!
# Verification of the pymqi structure-marshaling client

Shallow embedding of the core of `pymqi.py`:

* the generic `MQOpts` schema-driven pack/unpack engine,
* the `RFH2` extensible-header codec (`add_folder` / `unpack`),
* the `Queue` open-deferral and get-truncation-retry state machine,
* the `FilterOperator` builder, `PCFExecute.stringifyKeys`,
* `MQOpts.set` / `__setitem__` / `set_vs`.

Bytes are modelled as `Nat` values (0..255) and byte strings as `List Nat`.
Machine integers are modelled as `Int` with explicit two's-complement
reduction modulo `256 ^ width` where the wire format truncates.
The build modelled is the 32-bit one (`MQLONG_TYPE = 'l'`, 4 bytes), so
every `MQLONG` field and the hard-coded `"l"` folder-length format in
`RFH2.unpack` are 4-byte signed integers.

External collaborators (the `pymqe` transport driver and the XML parser
used by `RFH2`) are parameters of the definitions that call them, exactly
at the call boundary the source uses.
-/

namespace Pymqi

/-! ## Byte-level encoding helpers (the `struct` module's numeric codes) -/

/-- Little-endian base-256 digits of `v`, exactly `w` bytes. -/
def natToBytesLE : Nat → Nat → List Nat
  | 0, _ => []
  | w + 1, v => v % 256 :: natToBytesLE w (v / 256)

/-- Little-endian base-256 value of a byte list. -/
def bytesToNatLE : List Nat → Nat
  | [] => 0
  | b :: bs => b + 256 * bytesToNatLE bs

/-! ## Wire formats of the `struct` codes used by pymqi schemas

The schemas in the source use the codes `'i'`/`'l'` (`MQLONG`, 4-byte
signed), `'q'` (8-byte signed), `'P'` (pointer, unsigned), `'b'` (signed
byte), `'c'` (single byte) and `'Ns'` (fixed-width byte string), each
producing exactly one value per field — and, in the `cd` schema, the
repeat-count numeric codes `'2l'` (`HdrCompList`) and `'16l'`
(`MsgCompList`), whose list default is flattened by `pack` but which
contribute `count` elements to `struct.unpack`'s result tuple while the
unpack loop assigns only one element per field.  A `'>'` prefix on the
whole format string switches every numeric code to big-endian order. -/

inductive WireFmt
  /-- A numeric code: `width` bytes, signed or unsigned, little or big endian. -/
  | num (width : Nat) (signed : Bool) (bigEndian : Bool)
  /-- A repeat-count numeric code `'<count><code>'` (e.g. `'2l'`, `'16l'`):
  one schema field, `count` integers of `width` bytes each on the wire,
  and `count` elements of `struct.unpack`'s result tuple. -/
  | numArr (count : Nat) (width : Nat) (signed : Bool) (bigEndian : Bool)
  /-- The `'c'` code: exactly one byte. -/
  | char
  /-- The `'Ns'` code: `n` bytes, padded with NULs on pack. -/
  | str (n : Nat)
deriving DecidableEq

/-- A field value: an integer, a byte string, or a list of integers (the
array defaults of `cd`'s `HdrCompList`/`MsgCompList`), as the attribute
store and the `struct` module see them. -/
inductive FVal
  | intV (i : Int)
  | strV (s : List Nat)
  | listV (is : List Int)
deriving DecidableEq

/-- Byte size of one field, as `struct.calcsize` computes it. -/
def fieldSize : WireFmt → Nat
  | .num w _ _ => w
  | .numArr c w _ _ => c * w
  | .char => 1
  | .str n => n

/-- Two's-complement encoding of one integer of `w` bytes. -/
def encodeNum (w : Nat) (be : Bool) (i : Int) : List Nat :=
  let bs := natToBytesLE w ((i % ((256 : Int) ^ w)).toNat)
  if be then bs.reverse else bs

/-- Decoding of one integer of `w` bytes from exactly its bytes. -/
def decodeNum (w : Nat) (signed be : Bool) (bs : List Nat) : Int :=
  let bs := if be then bs.reverse else bs
  let u : Int := (bytesToNatLE bs : Nat)
  if signed ∧ (256 : Int) ^ w / 2 ≤ u then u - (256 : Int) ^ w else u

/-- The representable range of a numeric code (the values `struct.pack`
accepts without a `struct.error`). -/
def numInRange (w : Nat) (signed : Bool) (i : Int) : Bool :=
  decide ((if signed then -((256 : Int) ^ w / 2) else 0) ≤ i ∧
    i < (if signed then (256 : Int) ^ w / 2 else (256 : Int) ^ w))

/-- `struct.pack` of one schema field.  `none` models a `struct.error`
(type mismatch, out-of-range integer, a `'c'` value that is not exactly
one byte, or an array value whose flattened element count does not fill
its repeat-count code).  A short `'Ns'` string is padded with NULs, a long
one truncated. -/
def packField : WireFmt → FVal → Option (List Nat)
  | .num w signed be, .intV i =>
    if numInRange w signed i then some (encodeNum w be i) else none
  | .numArr c w signed be, .listV vs =>
    if vs.length = c ∧ vs.all (numInRange w signed) then
      some ((vs.map (encodeNum w be)).flatten)
    else none
  | .str n, .strV s => some (s.take n ++ List.replicate (n - s.length) 0)
  | .char, .strV s => if s.length = 1 then some s else none
  | _, _ => none

/-- The `count` result-tuple elements a repeat-count code contributes. -/
def unpackNums (w : Nat) (signed be : Bool) : Nat → List Nat → List FVal
  | 0, _ => []
  | c + 1, bs =>
    .intV (decodeNum w signed be (bs.take w)) :: unpackNums w signed be c (bs.drop w)

/-- The elements one format code contributes to `struct.unpack`'s result
tuple, from exactly its bytes: one for every code except the repeat-count
arrays, which contribute `count`. -/
def unpackFieldValues : WireFmt → List Nat → List FVal
  | .num w signed be, bs => [.intV (decodeNum w signed be bs)]
  | .numArr c w signed be, bs => unpackNums w signed be c bs
  | .str _, bs => [.strV bs]
  | .char, bs => [.strV bs]

/-- A field value lies within its wire format's representable range:
integers within the signed/unsigned bounds of their width, byte strings of
exactly the declared width, arrays of exactly `count` in-range integers. -/
def inRange : WireFmt → FVal → Bool
  | .num w signed _, .intV i => numInRange w signed i
  | .numArr c w signed _, .listV vs => vs.length = c && vs.all (numInRange w signed)
  | .str n, .strV s => s.length = n
  | .char, .strV s => s.length = 1
  | _, _ => false

/-- Format codes contributing exactly one element to `struct.unpack`'s
result tuple (every code of the source but the repeat-count arrays
`'2l'`/`'16l'` of the `cd` schema). -/
def singleValued : WireFmt → Bool
  | .numArr _ _ _ _ => false
  | _ => true

/-! ## The MQOpts engine (`MQOpts.pack` / `MQOpts.unpack`)

An `MQOpts` structure instance is its ordered field list: name, current
value, and `struct` format code, exactly the `[name, default, fmt]`
triples the source keeps in `self.__list`. -/

structure MQField where
  name : String
  value : FVal
  fmt : WireFmt
deriving DecidableEq

/-- `struct.calcsize` of the concatenated format string (`MQOpts.get_length`). -/
def calcSize (fs : List MQField) : Nat :=
  (fs.map fun f => fieldSize f.fmt).sum

/-- `MQOpts.pack`: concatenation of each field's wire representation in
schema order.  `none` models a `struct.error` escaping the call. -/
def mqPack : List MQField → Option (List Nat)
  | [] => some []
  | f :: fs => do
    let b ← packField f.fmt f.value
    let rest ← mqPack fs
    pure (b ++ rest)

/-- The flat result tuple of `struct.unpack` over the concatenated format:
each code takes its `fieldSize` bytes and contributes its elements. -/
def structUnpackValues : List WireFmt → List Nat → List FVal
  | [], _ => []
  | fmt :: fmts, buff =>
    unpackFieldValues fmt (buff.take (fieldSize fmt)) ++
      structUnpackValues fmts (buff.drop (fieldSize fmt))

/-- The assignment loop of `MQOpts.unpack` (`for i in list: setattr(self,
i[0], r[x]); x = x + 1`): one result-tuple element per schema field, in
order; `none` models the `IndexError` when the tuple is too short, and
surplus elements are ignored — so a repeat-count field consumes only the
first of its elements and shifts every later field. -/
def mqAssign : List MQField → List FVal → Option (List MQField)
  | [], _ => some []
  | _ :: _, [] => none
  | f :: fs, v :: vs => (mqAssign fs vs).map fun rest => { f with value := v } :: rest

/-- `MQOpts.unpack`: `struct.unpack` demands the buffer size equal the
format's computed size (`none` models the `struct.error` raised
otherwise), then the assignment loop overwrites the fields from the flat
result tuple. -/
def mqUnpack (fs : List MQField) (buff : List Nat) : Option (List MQField) :=
  if buff.length = calcSize fs then
    mqAssign fs (structUnpackValues (fs.map fun f => f.fmt) buff)
  else none

/-- A structure instance mirroring the `gmo`/`md` style schemas: a `'4s'`
magic, `MQLONG` fields, a signed byte, a `'c'` byte, an 8-byte handle, a
big-endian variant and an unsigned pointer, all with in-range values. -/
def sampleInstance : List MQField :=
  [⟨"StrucId", .strV [71, 77, 79, 32], .str 4⟩,
   ⟨"Version", .intV 1, .num 4 true false⟩,
   ⟨"Options", .intV (-2), .num 4 true false⟩,
   ⟨"GroupStatus", .intV 65, .num 1 true false⟩,
   ⟨"Reserved1", .strV [32], .char⟩,
   ⟨"MsgHandle", .intV 123456789, .num 8 true false⟩,
   ⟨"BigEndianLong", .intV (-100), .num 4 true true⟩,
   ⟨"ResponseRecPtr", .intV 300, .num 8 false false⟩]

/-- The array-field fragment of the `cd` (MQCD) schema: `HdrCompList` with
format `'2l'` (default `[0, -1]`) followed by an `MQLONG` field, with
in-range values. -/
def cdArraySchema : List MQField :=
  [⟨"HdrCompList", .listV [0, 5], .numArr 2 4 true false⟩,
   ⟨"CLWLChannelRank", .intV 3, .num 4 true false⟩]

/-! ## The MQOpts attribute store (`set` / `__setitem__` / `set_vs`)

`MQOpts.__init__` creates one instance attribute per schema field; the
instance also carries the name-mangled bookkeeping attributes and the
class's methods, all reachable by `getattr`.  `set` and `__setitem__`
guard `setattr` with a `getattr` on the same name, so a name passes the
guard exactly when it is *any* attribute of the instance, not only a
schema field. -/

/-- Attributes every `MQOpts` instance has besides its schema fields: the
name-mangled `self.__list` / `self.__format` bookkeeping attributes, the
methods of the class, the class dict's `__doc__`/`__module__`, and the
special instance attributes `__class__`/`__dict__` — all visible to
`getattr` on an old-style instance. -/
def mqoptsClassAttrs : List String :=
  ["_MQOpts__list", "_MQOpts__format", "pack", "unpack", "set", "get",
   "get_length", "set_vs", "get_vs", "__init__", "__setitem__",
   "__getitem__", "__str__", "__repr__", "__doc__", "__module__",
   "__class__", "__dict__"]

/-- An `MQOpts` instance's mutable attribute state: the schema-backed
fields (in schema order) and any instance attributes added past the
schema (Python's `setattr` adds to the instance dict). -/
structure MQInst where
  fields : List (String × FVal)
  extras : List (String × FVal)
deriving DecidableEq

/-- First-match association-list lookup (Python attribute read). -/
def lookupS : List (String × FVal) → String → Option FVal
  | [], _ => none
  | p :: ps, n => if p.1 = n then some p.2 else lookupS ps n

/-- Does the association list bind the name? -/
def hasName : List (String × FVal) → String → Bool
  | [], _ => false
  | p :: ps, n => p.1 = n || hasName ps n

/-- Overwrite every binding of `n` (Python attribute write on an existing
attribute). -/
def setPairs (ps : List (String × FVal)) (n : String) (v : FVal) :
    List (String × FVal) :=
  ps.map fun p => if p.1 = n then (n, v) else p

/-- `getattr(self, name)` succeeds: the name is a schema field, an added
instance attribute, or a class attribute/method. -/
def mqHasAttr (inst : MQInst) (n : String) : Bool :=
  hasName inst.fields n || hasName inst.extras n || mqoptsClassAttrs.contains n

/-- `setattr(self, name, v)`: overwrite a schema field or an existing extra
attribute, otherwise add a new instance attribute (never a schema field). -/
def mqSetAttr (inst : MQInst) (n : String) (v : FVal) : MQInst :=
  if hasName inst.fields n then { inst with fields := setPairs inst.fields n v }
  else if hasName inst.extras n then { inst with extras := setPairs inst.extras n v }
  else { inst with extras := inst.extras ++ [(n, v)] }

/-- Python exceptions the modelled methods can raise. -/
inductive PyExc
  | attributeError (name : String)
  | typeError
deriving DecidableEq

instance exceptDecEq {ε α : Type} [DecidableEq ε] [DecidableEq α] :
    DecidableEq (Except ε α) := fun a b =>
  match a, b with
  | .error e, .error f =>
    if h : e = f then .isTrue (by rw [h])
    else .isFalse (by intro hc; cases hc; exact h rfl)
  | .error _, .ok _ => .isFalse (by intro hc; cases hc)
  | .ok _, .error _ => .isFalse (by intro hc; cases hc)
  | .ok x, .ok y =>
    if h : x = y then .isTrue (by rw [h])
    else .isFalse (by intro hc; cases hc; exact h rfl)

/-- `str.endswith(suffix)`, over the underlying character lists. -/
def strEndsWith (s suffix : String) : Bool :=
  decide (s.data.reverse.take suffix.data.length = suffix.data.reverse)

/-- `MQOpts.__setitem__` (also the per-key body of `MQOpts.set`): a
`getattr` guard, then `setattr`. -/
def mqSetItem (inst : MQInst) (key : String) (v : FVal) : Except PyExc MQInst :=
  if mqHasAttr inst key then .ok (mqSetAttr inst key v) else
    .error (.attributeError key)

/-- `MQOpts.set(**kw)`: the guarded `setattr` applied to each keyword in
turn; the first failing name raises `AttributeError`. -/
def mqSet (inst : MQInst) : List (String × FVal) → Except PyExc MQInst
  | [] => .ok inst
  | (k, v) :: rest => do
    let inst ← mqSetItem inst k v
    mqSet inst rest

/-- Python attribute read on the instance state. -/
def mqGetAttr (inst : MQInst) (n : String) : Option FVal :=
  match lookupS inst.fields n with
  | some v => some v
  | none => lookupS inst.extras n

/-- `MQOpts.set_vs`: sets the five MQCHARV components of the named
variable-length-string field.  The stored pointer is a runtime `ctypes`
address, abstracted by the parameter `ptrOf`; with the default
`vs_value = None`, `self[..VSPtr] = 0` and the offset/buffer-size
assignments happen, then `len(vs_value)` raises `TypeError` before the
`VSLength` component is assigned. -/
def mqSetVs (ptrOf : List Nat → Int) (inst : MQInst) (vs_name : String)
    (vs_value : Option (List Nat)) (vs_offset vs_buffer_size vs_ccsid : Int) :
    Except PyExc MQInst := do
  let vs_name_vsptr :=
    if strEndsWith vs_name "VSPtr" then vs_name else vs_name ++ "VSPtr"
  let c_vs_value_p : Int :=
    match vs_value with
    | none => 0
    | some v => ptrOf v
  let inst ← mqSetItem inst vs_name_vsptr (.intV c_vs_value_p)
  let inst ← mqSetItem inst (vs_name ++ "VSOffset") (.intV vs_offset)
  let inst ← mqSetItem inst (vs_name ++ "VSBufSize") (.intV vs_buffer_size)
  match vs_value with
  | none => .error .typeError
  | some v => do
    let inst ← mqSetItem inst (vs_name ++ "VSLength") (.intV (v.length : Int))
    mqSetItem inst (vs_name ++ "VSCCSID") (.intV vs_ccsid)

/-- An instance with a small two-field schema and no extra attributes. -/
def sampleInst : MQInst :=
  ⟨[("StrucId", .strV [84, 77, 32, 32]), ("Version", .intV 1)], []⟩

/-- An instance carrying the five MQCHARV components of `ObjectString`
(as in the version-2 `MQOD` schema). -/
def vsInst : MQInst :=
  ⟨[("ObjectStringVSPtr", .intV 0), ("ObjectStringVSOffset", .intV 0),
    ("ObjectStringVSBufSize", .intV 0), ("ObjectStringVSLength", .intV 0),
    ("ObjectStringVSCCSID", .intV 0)], []⟩

/-! ## The RFH2 extensible-header codec (`add_folder` / `unpack`) -/

/-- Modelled from the spec: `CMQC.MQRFH_STRUC_ID`, the 4-byte magic
`"RFH "` of the self-describing header; the `CMQC` constant table is an
external lookup service not among the source files, so its standard MQI
value is used. -/
def MQRFH_STRUC_ID : List Nat := [82, 70, 72, 32]

/-- Modelled from the spec: `RFH2.big_endian_encodings`, the recognized
big-endian encoding values built from the external `CMQC.MQENC_*`
constants (integer/decimal/float-normal, S/390 float, and their sums). -/
def bigEndianEncodings : List Int := [1, 16, 256, 768, 17, 257, 272, 273]

/-- One folder of an RFH2 header: the root tag name, the value stored in
the appended `<name>Length` field, and the folder bytes (wire format
`"%is" % folderLength`). -/
structure Folder where
  name : String
  folderLength : Int
  data : List Nat
deriving DecidableEq

/-- The RFH2 instance state: the 8 fixed preamble fields (36 bytes on the
wire, defaults as in `RFH2.initial_opts`) plus the appended folders.
`bigEndianFmt` records whether the first field's format carries the `'>'`
prefix (set by `unpack` for a big-endian buffer), which switches the whole
`struct` format to big-endian and disables native-mode alignment. -/
structure RFH2 where
  StrucId : List Nat := [82, 70, 72, 32]
  Version : Int := 2
  StrucLength : Int := 0
  Encoding : Int := 546
  CodedCharSetId : Int := 0
  Format : List Nat := [32, 32, 32, 32, 32, 32, 32, 32]
  Flags : Int := 0
  NameValueCCSID : Int := 0
  bigEndianFmt : Bool := false
  folders : List Folder := []
deriving DecidableEq

/-- Native-mode alignment of the `struct` module: the offset is padded up
to a 4-byte boundary before an `MQLONG` field, unless the format carries
the big-endian `'>'` prefix, which disables alignment. -/
def alignTo4 (bigEndianFmt : Bool) (off : Int) : Int :=
  if bigEndianFmt then off else off + (4 - off % 4) % 4

/-- `MQOpts.get_length` (`struct.calcsize`) of an RFH2 instance: the
36-byte preamble (aligned in both modes) then, per folder, an aligned
4-byte `MQLONG` length field followed by the `"%is"` blob sized by the
stored folder length — so in native (little-endian) mode a folder length
that is not a multiple of 4 forces pad bytes before the next length
field. -/
def rfh2Length (r : RFH2) : Int :=
  r.folders.foldl (fun off f => alignTo4 r.bigEndianFmt off + 4 + f.folderLength) 36

/-- Errors out of the RFH2 codec: `PYIFError` with its message, or a
`struct.error` escaping a malformed 4-byte length read. -/
inductive RErr
  | pyif (msg : String)
  | structError
deriving DecidableEq

/-- `RFH2.add_folder`: validate the payload with the XML parser (the
external `lxml`/minidom dependency, parameter `parse`, returning the root
tag name of well-formed markup), pad the payload to a 4-byte boundary with
spaces, append the `(<name>Length, <name>)` field pair, and store the
recomputed total length in `StrucLength`. -/
def rfh2AddFolder (parse : List Nat → Option String) (r : RFH2)
    (folder_data : List Nat) : Except RErr RFH2 :=
  match parse folder_data with
  | none => .error (.pyif "RFH2 - XML Folder not well formed.")
  | some folder_name =>
    let folder_length := folder_data.length
    let remainder := folder_length % 4
    let folder_data :=
      if remainder ≠ 0 then folder_data ++ List.replicate (4 - remainder) 32
      else folder_data
    let folder_length := folder_data.length
    let r := { r with folders :=
      r.folders ++ [Folder.mk folder_name (folder_length : Int) folder_data] }
    .ok { r with StrucLength := rfh2Length r }

/-- `struct.unpack` of one 4-byte signed `MQLONG` (the hard-coded
`"l"`/`">l"` of the folder loop, 4 bytes on the 32-bit build). -/
def decodeMQLong (bigEndian : Bool) (bs : List Nat) : Int :=
  let bs := if bigEndian then bs.reverse else bs
  let u : Int := (bytesToNatLE bs : Nat)
  if (256 : Int) ^ 4 / 2 ≤ u then u - (256 : Int) ^ 4 else u

/-- Python slice `s[k:]` (a negative `k` counts from the end). -/
def pySliceFrom (s : List Nat) (k : Int) : List Nat :=
  if 0 ≤ k then s.drop k.toNat else s.drop (((s.length : Int) + k).toNat)

/-- Python slice `s[:k]` (a negative `k` counts from the end). -/
def pySliceTo (s : List Nat) (k : Int) : List Nat :=
  if 0 ≤ k then s.take k.toNat else s.take (((s.length : Int) + k).toNat)

/-- Python slice `s[a:b]` for a nonnegative start `a`. -/
def pySlice (s : List Nat) (a : Nat) (b : Int) : List Nat :=
  (s.take (if 0 ≤ b then b.toNat else ((s.length : Int) + b).toNat)).drop a

/-- The folder-scanning `while` loop of `RFH2.unpack`: read the 4-byte
length prefix, slice out the folder, parse its root tag name, and append
the folder; a nonempty remainder shorter than 4 bytes makes the
`struct.unpack` of the length prefix raise `struct.error`. -/
def parseFolders (parse : List Nat → Option String) (bigEndian : Bool)
    (s : List Nat) (acc : List Folder) : Except RErr (List Folder) :=
  if _h0 : s.isEmpty then .ok acc
  else if _h4 : s.length < 4 then .error .structError
  else
    let folder_length := decodeMQLong bigEndian (s.take 4)
    let s1 := s.drop 4
    let folder_data := pySliceTo s1 folder_length
    match parse folder_data with
    | none => .error (.pyif "RFH2 - XML Folder not well formed.")
    | some folder_name =>
      parseFolders parse bigEndian (pySliceFrom s1 folder_length)
        (acc ++ [⟨folder_name, folder_length, folder_data⟩])
termination_by s.length
decreasing_by
  simp only [pySliceFrom]
  split <;> simp only [List.length_drop] <;> omega

/-- The endianness `RFH2.unpack` uses: membership of the passed encoding
in the big-endian set when one is given, else a zero first byte of the
Version field. -/
def rfh2BigEndian (encoding : Option Int) (buff : List Nat) : Bool :=
  match encoding with
  | some e => bigEndianEncodings.contains e
  | none => decide ((buff.drop 4).take 1 = [0])

/-- `MQOpts.unpack` of the 8-field preamble from `buff[0:36]` (format
`'4s'` + 4 `MQLONG`s + `'8s'` + 2 `MQLONG`s, big-endian throughout when
the first field's format is prefixed with `'>'`). -/
def rfh2UnpackPreamble (be : Bool) (buff : List Nat) : RFH2 :=
  { StrucId := buff.take 4
    Version := decodeMQLong be ((buff.drop 4).take 4)
    StrucLength := decodeMQLong be ((buff.drop 8).take 4)
    Encoding := decodeMQLong be ((buff.drop 12).take 4)
    CodedCharSetId := decodeMQLong be ((buff.drop 16).take 4)
    Format := (buff.drop 20).take 8
    Flags := decodeMQLong be ((buff.drop 28).take 4)
    NameValueCCSID := decodeMQLong be ((buff.drop 32).take 4)
    bigEndianFmt := be
    folders := [] }

/-- `RFH2.unpack`: magic check, minimum-length check, endianness
determination, preamble decode, the negative-`StrucLength` check, the
oversized-`StrucLength` check (guarded by `len(buff) > 36`), then the
folder scan over `buff[36:StrucLength]`. -/
def rfh2Unpack (parse : List Nat → Option String) (buff : List Nat)
    (encoding : Option Int) : Except RErr RFH2 :=
  if buff.take 4 ≠ MQRFH_STRUC_ID then
    .error (.pyif "RFH2 - StrucId not MQRFH_STRUC_ID.")
  else if buff.length < 36 then
    .error (.pyif "RFH2 - Buffer too short.")
  else
    let big_endian := rfh2BigEndian encoding buff
    let pre := rfh2UnpackPreamble big_endian buff
    if pre.StrucLength < 0 then
      .error (.pyif "RFH2 - StrucLength is negative.")
    else if 36 < buff.length ∧ (buff.length : Int) < pre.StrucLength then
      .error (.pyif "RFH2 - Buffer too short for StrucLength.")
    else
      match parseFolders parse big_endian (pySlice buff 36 pre.StrucLength) [] with
      | .error e => .error e
      | .ok folders => .ok { pre with folders := folders }

/-- Modelled from the spec: the external XML parser (`lxml.etree` /
minidom), restricted to the two well-formed payloads the concrete inputs
below use — `"<ab/>"` and `"<ab/>   "` are well-formed markup with root
tag `ab`; everything else is treated as not well formed. -/
def xmlParseAb : List Nat → Option String := fun s =>
  if s = [60, 97, 98, 47, 62] then some "ab"
  else if s = [60, 97, 98, 47, 62, 32, 32, 32] then some "ab"
  else none

/-- A 36-byte little-endian RFH2 buffer whose declared `StrucLength` is
100: magic `"RFH "`, Version 2, StrucLength 100, Encoding 546,
CodedCharSetId 0, Format 8 spaces, Flags 0, NameValueCCSID 0. -/
def rfh2Buff36 : List Nat :=
  [82, 70, 72, 32, 2, 0, 0, 0, 100, 0, 0, 0, 34, 2, 0, 0, 0, 0, 0, 0,
   32, 32, 32, 32, 32, 32, 32, 32, 0, 0, 0, 0, 0, 0, 0, 0]

/-- As `rfh2Buff36` but with a negative declared `StrucLength` (-1). -/
def rfh2BuffNeg : List Nat :=
  [82, 70, 72, 32, 2, 0, 0, 0, 255, 255, 255, 255, 34, 2, 0, 0, 0, 0, 0, 0,
   32, 32, 32, 32, 32, 32, 32, 32, 0, 0, 0, 0, 0, 0, 0, 0]

/-- A 37-byte buffer with declared `StrucLength` 100: oversized, and the
buffer is strictly longer than 36 bytes. -/
def rfh2BuffOver : List Nat := rfh2Buff36 ++ [0]

/-- A 45-byte buffer with consistent `StrucLength` 45 whose folder's
4-byte length prefix declares 9 although only the 5 bytes of `"<ab/>"`
follow it. -/
def rfh2BuffLying : List Nat :=
  [82, 70, 72, 32, 2, 0, 0, 0, 45, 0, 0, 0, 34, 2, 0, 0, 0, 0, 0, 0,
   32, 32, 32, 32, 32, 32, 32, 32, 0, 0, 0, 0, 0, 0, 0, 0,
   9, 0, 0, 0, 60, 97, 98, 47, 62]

/-- The instance `rfh2BuffLying` unpacks to. -/
def rfh2LyingResult : RFH2 :=
  { StrucId := [82, 70, 72, 32], Version := 2, StrucLength := 45,
    Encoding := 546, CodedCharSetId := 0,
    Format := [32, 32, 32, 32, 32, 32, 32, 32], Flags := 0,
    NameValueCCSID := 0, folders := [⟨"ab", 9, [60, 97, 98, 47, 62]⟩] }

/-- A 48-byte buffer holding one consistent folder: `StrucLength` 48,
folder length prefix 8, folder data `"<ab/>   "`. -/
def rfh2BuffGood : List Nat :=
  [82, 70, 72, 32, 2, 0, 0, 0, 48, 0, 0, 0, 34, 2, 0, 0, 0, 0, 0, 0,
   32, 32, 32, 32, 32, 32, 32, 32, 0, 0, 0, 0, 0, 0, 0, 0,
   8, 0, 0, 0, 60, 97, 98, 47, 62, 32, 32, 32]

/-- The instance produced both by `add_folder` of `"<ab/>"` on a fresh
RFH2 and by `unpack` of `rfh2BuffGood`. -/
def rfh2AddResult : RFH2 :=
  { StrucLength := 48, folders := [⟨"ab", 8, [60, 97, 98, 47, 62, 32, 32, 32]⟩] }

/-! ## The Queue state machine (open deferral and get-truncation retry)

The `pymqe` transport driver is external: `MQOPEN`, `MQPUT` and `MQGET`
are parameters returning the result tuples the source destructures.  The
packed descriptor/option structures are opaque byte strings threaded
through, exactly as the source passes `pack()` output in and feeds the
returned buffers to `unpack()`. -/

/-- Modelled from the spec: `CMQC.MQRC_TRUNCATED_MSG_FAILED` from the
external constant table (its standard MQI value). -/
def MQRC_TRUNCATED_MSG_FAILED : Int := 2080

/-- Modelled from the spec: `CMQC.MQOO_INPUT_AS_Q_DEF`, the open option
`Queue.get` uses for a deferred open. -/
def MQOO_INPUT_AS_Q_DEF : Int := 1

/-- Modelled from the spec: `CMQC.MQOO_OUTPUT`, the open option
`Queue.put` uses for a deferred open. -/
def MQOO_OUTPUT : Int := 16

/-- Result tuple of `pymqe.MQOPEN`: `(handle, packed MQOD, comp, reason)`. -/
structure OpenResult where
  handle : Int
  odBuf : List Nat
  comp : Int
  reason : Int

/-- Result tuple of `pymqe.MQGET`:
`(msg, packed MQMD, packed MQGMO, original length, comp, reason)`. -/
structure GetResult where
  msg : List Nat
  mdBuf : List Nat
  gmoBuf : List Nat
  origLen : Int
  comp : Int
  reason : Int

/-- Result tuple of `pymqe.MQPUT`: `(packed MQMD, packed MQPMO, comp, reason)`. -/
structure PutResult where
  mdBuf : List Nat
  pmoBuf : List Nat
  comp : Int
  reason : Int

/-- The `Queue` instance state: `self.__qHandle`, `self.__qDesc` (packed
MQOD, opaque here) and `self.__openOpts`, each `None` until assigned. -/
structure Queue where
  qHandle : Option Int
  qDesc : Option (List Nat)
  openOpts : Option Int
deriving DecidableEq

/-- Errors `Queue` methods raise: `PYIFError` or `MQMIError(comp, reason)`. -/
inductive QErr
  | pyif (msg : String)
  | mqmi (comp : Int) (reason : Int)
deriving DecidableEq

/-- Python truthiness of `self.__qHandle` (`None` and `0` are falsy). -/
def handleTruthy : Option Int → Bool
  | none => false
  | some h => h ≠ 0

/-- `Queue.__realOpen`: fails if no descriptor is set, calls the
transport's `MQOPEN` with the packed descriptor and the stored open
options, wraps a non-zero completion code as `MQMIError`, then stores the
returned handle and unpacks the returned descriptor. -/
def realOpen (openT : List Nat → Option Int → OpenResult) (q : Queue) :
    Except QErr Queue :=
  match q.qDesc with
  | none => .error (.pyif "The Queue Descriptor has not been set.")
  | some d =>
    let rv := openT d q.openOpts
    if rv.comp ≠ 0 then .error (.mqmi rv.comp rv.reason)
    else .ok { q with qHandle := some rv.handle, qDesc := some rv.odBuf }

/-- The positional arguments of `Queue.__init__` past the queue manager:
none, a descriptor only, or a descriptor with open options (three or more
raise `TypeError` before any state is built). -/
inductive QInitArgs
  | noArgs
  | descOnly (qDesc : List Nat)
  | descOpts (qDesc : List Nat) (openOpts : Int)

/-- `Queue.__init__`: handle, descriptor and open options start as `None`;
a supplied descriptor is stored; supplied open options trigger the
immediate `__realOpen`. -/
def queueInit (openT : List Nat → Option Int → OpenResult) :
    QInitArgs → Except QErr Queue
  | .noArgs => .ok ⟨none, none, none⟩
  | .descOnly d => .ok ⟨none, some d, none⟩
  | .descOpts d o => realOpen openT ⟨none, some d, some o⟩

/-- `Queue.open`: rejects an already-open queue, stores the new
descriptor, and opens immediately exactly when open options are passed. -/
def queueOpen (openT : List Nat → Option Int → OpenResult) (q : Queue)
    (qDesc : List Nat) (opts : Option Int) : Except QErr Queue :=
  if handleTruthy q.qHandle then .error (.pyif "The Queue is already open")
  else
    let q := { q with qDesc := some qDesc }
    match opts with
    | none => .ok q
    | some o => realOpen openT { q with openOpts := some o }

/-- `Queue.put`: lazily opens with `MQOO_OUTPUT` when the handle is not
truthy, sends via the transport's `MQPUT`, wraps a non-zero completion
code, and returns the queue state with the descriptor/options buffers the
caller's structures are unpacked from. -/
def queuePut (openT : List Nat → Option Int → OpenResult)
    (putT : Option Int → List Nat → List Nat → List Nat → PutResult)
    (q : Queue) (msg mdBuf putOptsBuf : List Nat) :
    Except QErr (Queue × List Nat × List Nat) := do
  let q ← if handleTruthy q.qHandle then Except.ok q
          else realOpen openT { q with openOpts := some MQOO_OUTPUT }
  let rv := putT q.qHandle mdBuf putOptsBuf msg
  if rv.comp ≠ 0 then .error (.mqmi rv.comp rv.reason)
  else .ok (q, rv.mdBuf, rv.pmoBuf)

/-- One transport `MQGET` call as issued by `Queue.get`: the packed
descriptor passed in and the requested buffer length. -/
structure GetCall where
  mdBuf : List Nat
  length : Int
deriving DecidableEq

/-- The tail of `Queue.get` after a non-OK completion that is not raised
to the caller: a reason other than `MQRC_TRUNCATED_MSG_FAILED` is raised;
otherwise the descriptor unpacked from the first reply (saving the
message id) is repacked and the get reissued exactly once with the
reported true length `rv[-3]`. -/
def queueGetRetry (getT : Nat → GetResult) (q : Queue) (rv : GetResult)
    (call0 : GetCall) :
    (Except QErr (List Nat × Queue × List Nat × List Nat)) × List GetCall :=
  if rv.reason ≠ MQRC_TRUNCATED_MSG_FAILED then
    (.error (.mqmi rv.comp rv.reason), [call0])
  else
    let rv2 := getT 1
    let call1 : GetCall := ⟨rv.mdBuf, rv.origLen⟩
    if rv2.comp ≠ 0 then (.error (.mqmi rv2.comp rv2.reason), [call0, call1])
    else (.ok (rv2.msg, q, rv2.mdBuf, rv2.gmoBuf), [call0, call1])

/-- `Queue.get`: lazily opens with `MQOO_INPUT_AS_Q_DEF` when the handle
is not truthy; requests 4096 bytes when no max length is supplied, else
the caller's value; returns the payload on a zero completion; raises
immediately for a caller-supplied `maxLength >= 0`; otherwise hands off
to the truncation-retry tail.  The transport is a parameter indexed by
call number; alongside the result, the list of transport get calls
actually issued is returned. -/
def queueGet (openT : List Nat → Option Int → OpenResult)
    (getT : Nat → GetResult) (q : Queue) (mdBuf _gmoBuf : List Nat)
    (maxLength : Option Int) :
    (Except QErr (List Nat × Queue × List Nat × List Nat)) × List GetCall :=
  match (if handleTruthy q.qHandle then Except.ok q
         else realOpen openT { q with openOpts := some MQOO_INPUT_AS_Q_DEF }) with
  | .error e => (.error e, [])
  | .ok q =>
    let length : Int :=
      match maxLength with
      | none => 4096
      | some m => m
    let rv := getT 0
    let call0 : GetCall := ⟨mdBuf, length⟩
    if rv.comp = 0 then (.ok (rv.msg, q, rv.mdBuf, rv.gmoBuf), [call0])
    else
      match maxLength with
      | some m =>
        if 0 ≤ m then (.error (.mqmi rv.comp rv.reason), [call0])
        else queueGetRetry getT q rv call0
      | none => queueGetRetry getT q rv call0

/-- A transport whose first get reports a truncated completion (comp 2,
reason `MQRC_TRUNCATED_MSG_FAILED`) with true length 9 and whose second
get succeeds with the 9-byte payload. -/
def truncT : Nat → GetResult := fun i =>
  if i = 0 then ⟨[1, 2, 3], [7], [8], 9, 2, 2080⟩
  else ⟨[1, 2, 3, 4, 5, 6, 7, 8, 9], [7], [8], 9, 0, 0⟩

/-- A transport whose first get is truncated with true length 5 and whose
second get succeeds with a 5-byte payload. -/
def truncT2 : Nat → GetResult := fun i =>
  if i = 0 then ⟨[9], [11], [12], 5, 2, 2080⟩
  else ⟨[9, 8, 7, 6, 5], [11], [12], 5, 0, 0⟩

/-- An already-open queue (handle 1). -/
def openQueue : Queue := ⟨some 1, some [], none⟩

/-- A transport open that always succeeds with handle 7. -/
def okOpenT : List Nat → Option Int → OpenResult := fun d _ => ⟨7, d, 0, 0⟩

/-- A transport get that always succeeds at once. -/
def okGetT : Nat → GetResult := fun _ => ⟨[1, 2], [3], [4], 2, 0, 0⟩

/-- A transport put that always succeeds. -/
def okPutT : Option Int → List Nat → List Nat → List Nat → PutResult :=
  fun _ md pmo _ => ⟨md, pmo, 0, 0⟩

/-! ## The filter builder and PCF result decoding -/

/-- Modelled from the spec: the integer attribute selector range
`CMQC.MQIA_FIRST` of the external constant table. -/
def MQIA_FIRST : Int := 1

/-- Modelled from the spec: `CMQC.MQIA_LAST`. -/
def MQIA_LAST : Int := 2000

/-- Modelled from the spec: the string attribute selector range
`CMQC.MQCA_FIRST` (disjoint from the integer range). -/
def MQCA_FIRST : Int := 2001

/-- Modelled from the spec: `CMQC.MQCA_LAST`. -/
def MQCA_LAST : Int := 4000

/-- Modelled from the spec: `FilterOperator.operator_mapping`, the fixed
operator-name table whose codes come from the external `CMQCFC.MQCFOP_*`
constants (standard MQI values). -/
def operator_mapping : String → Option Int
  | "less" => some 1
  | "equal" => some 2
  | "greater" => some 4
  | "not_less" => some 6
  | "not_equal" => some 5
  | "not_greater" => some 3
  | "like" => some 18
  | "not_like" => some 21
  | "contains" => some 10
  | "excludes" => some 13
  | "contains_gen" => some 26
  | "excludes_gen" => some 29
  | _ => none

/-- Which private filter class the builder instantiates. -/
inductive FilterType
  | integer
  | string
deriving DecidableEq

/-- A low-level filter (`IntegerFilter` / `StringFilter`): selector,
value, and resolved operator code. -/
structure PrivFilter (α : Type) where
  ftype : FilterType
  selector : Int
  value : α
  op : Int
deriving DecidableEq

/-- The operator-resolution tail of `FilterOperator.__call__`: the
`operator_mapping.get` lookup followed by the falsy check `if not
operator` (which rejects both a missing name and a zero code). -/
def finishFilter {α : Type} (t : FilterType) (selector : Int)
    (operatorName : String) (value : α) : Except String (PrivFilter α) :=
  match operator_mapping operatorName with
  | none => .error "Operator is not supported."
  | some op =>
    if op = 0 then .error "Operator is not supported."
    else .ok ⟨t, selector, value, op⟩

/-- `FilterOperator.__call__`: classify the selector into the integer or
the string attribute range — failing outside both — then resolve the
operator name and build the typed filter. -/
def filterOperatorCall {α : Type} (selector : Int) (operatorName : String)
    (value : α) : Except String (PrivFilter α) :=
  if MQIA_FIRST ≤ selector ∧ selector ≤ MQIA_LAST then
    finishFilter .integer selector operatorName value
  else if MQCA_FIRST ≤ selector ∧ selector ≤ MQCA_LAST then
    finishFilter .string selector operatorName value
  else .error "selector is of an unsupported type"

/-- A PCF attribute value: string or integer (its type chooses which
constant table `stringifyKeys` consults). -/
inductive PCFVal
  | str (s : List Nat)
  | int (i : Int)
deriving DecidableEq

/-- A key of the stringified result mapping: replaced by a symbolic name,
or kept as the raw numeric key. -/
inductive PCFKey
  | sym (name : String)
  | num (k : Int)
deriving DecidableEq

/-- `PCFExecute.stringifyKeys`: for each entry of the raw result mapping,
consult the string-attribute table for string values and the
integer-attribute table otherwise (`caStringDict`/`iaStringDict`,
parameters here — they are built lazily from the external `CMQC`
namespace); the `KeyError` for an unknown key is caught and the raw key
kept with its value. -/
def stringifyKeys (caDict iaDict : Int → Option String)
    (raw : List (Int × PCFVal)) : List (PCFKey × PCFVal) :=
  raw.map fun p =>
    let d := match p.2 with
      | .str _ => caDict
      | .int _ => iaDict
    match d p.1 with
    | some name => (.sym name, p.2)
    | none => (.num p.1, p.2)

/-- A concrete string-attribute table (symbolic names for 2001 and 2016). -/
def caDictSample : Int → Option String := fun k =>
  if k = 2001 then some "MQCA_APPL_ID"
  else if k = 2016 then some "MQCA_Q_NAME"
  else none

/-- A concrete integer-attribute table (symbolic names for 1 and 9). -/
def iaDictSample : Int → Option String := fun k =>
  if k = 1 then some "MQIA_APPL_TYPE"
  else if k = 9 then some "MQIA_CURRENT_Q_DEPTH"
  else none

/-! ## Supporting lemmas -/

theorem natToBytesLE_length (w v : Nat) : (natToBytesLE w v).length = w := by
  induction w generalizing v with
  | zero => rfl
  | succ w ih => simp [natToBytesLE, ih]

theorem bytesToNatLE_natToBytesLE (w v : Nat) (h : v < 256 ^ w) :
    bytesToNatLE (natToBytesLE w v) = v := by
  induction w generalizing v with
  | zero =>
    simp [natToBytesLE, bytesToNatLE]
    omega
  | succ w ih =>
    have hdiv : v / 256 < 256 ^ w := by
      rw [Nat.div_lt_iff_lt_mul (by norm_num : 0 < 256)]
      calc v < 256 ^ (w + 1) := h
        _ = 256 ^ w * 256 := by rw [pow_succ]
    simp only [natToBytesLE, bytesToNatLE, ih (v / 256) hdiv]
    omega

theorem decodeNum_encodeNum (w : Nat) (signed be : Bool) (i : Int)
    (h : numInRange w signed i = true) :
    (encodeNum w be i).length = w ∧ decodeNum w signed be (encodeNum w be i) = i := by
  simp only [numInRange, decide_eq_true_eq] at h
  obtain ⟨hlo, hhi⟩ := h
  set N : Int := (256 : Int) ^ w with hN
  have hNpos : 0 < N := by positivity
  have hHalf2 : 2 * (N / 2) ≤ N := by omega
  have hHalfN : N / 2 ≤ N := by omega
  -- the packed value: two's-complement reduction of i mod N
  have hemod_eq : i % N = if 0 ≤ i then i else i + N := by
    by_cases hi : 0 ≤ i
    · have hlt : i < N := by
        by_cases hs : signed <;> simp [hs] at hhi <;> omega
      simp only [if_pos hi]
      exact Int.emod_eq_of_lt hi hlt
    · have hs : signed = true := by
        by_contra hs
        simp [hs] at hlo
        omega
      simp only [hs, if_true] at hlo hhi
      have h1 : 0 ≤ i + N := by omega
      have h2 : i + N < N := by omega
      simp only [if_neg hi]
      calc i % N = (i + N * 1) % N := by rw [Int.add_mul_emod_self_left]
        _ = i + N := by rw [mul_one]; exact Int.emod_eq_of_lt h1 h2
  have hemod_lt : i % N < N := Int.emod_lt_of_pos i hNpos
  have hemod_nonneg : 0 ≤ i % N := Int.emod_nonneg i (by omega)
  have htoNat_lt : (i % N).toNat < 256 ^ w := by
    have hcast : ((256 ^ w : Nat) : Int) = N := by push_cast [hN]; ring
    omega
  have hdec : bytesToNatLE (natToBytesLE w (i % N).toNat) = (i % N).toNat :=
    bytesToNatLE_natToBytesLE w _ htoNat_lt
  constructor
  · simp only [encodeNum]
    by_cases hbe : be <;> simp [hbe, natToBytesLE_length]
  · simp only [encodeNum, decodeNum]
    by_cases hbe : be <;>
      simp only [hbe, if_true, if_false, List.reverse_reverse, Bool.false_eq_true] <;>
    · rw [hdec, Int.toNat_of_nonneg hemod_nonneg]
      by_cases hi : 0 ≤ i
      · have hmod : i % N = i := by rw [hemod_eq, if_pos hi]
        rw [hmod]
        have hcond : ¬ (signed = true ∧ N / 2 ≤ i) := by
          rintro ⟨hs, hge⟩
          simp [hs] at hhi
          omega
        rw [if_neg hcond]
      · have hs : signed = true := by
          by_contra hs
          simp [hs] at hlo
          omega
        simp only [hs, if_true] at hlo hhi
        have hmod : i % N = i + N := by rw [hemod_eq, if_neg hi]
        rw [hmod]
        have hcond : signed = true ∧ N / 2 ≤ i + N := ⟨hs, by omega⟩
        rw [if_pos hcond]
        ring

theorem packField_roundtrip (fmt : WireFmt) (v : FVal)
    (hsv : singleValued fmt = true) (h : inRange fmt v = true) :
    ∃ bs, packField fmt v = some bs ∧ bs.length = fieldSize fmt ∧
      unpackFieldValues fmt bs = [v] := by
  cases fmt with
  | num w signed be =>
    cases v with
    | strV s => simp [inRange] at h
    | listV vs => simp [inRange] at h
    | intV i =>
      simp only [inRange] at h
      obtain ⟨hlen, hdec⟩ := decodeNum_encodeNum w signed be i h
      refine ⟨encodeNum w be i, ?_, ?_, ?_⟩
      · simp [packField, h]
      · simp [fieldSize, hlen]
      · simp [unpackFieldValues, hdec]
  | numArr c w signed be => simp [singleValued] at hsv
  | char =>
    cases v with
    | intV i => simp [inRange] at h
    | listV vs => simp [inRange] at h
    | strV s =>
      simp only [inRange, decide_eq_true_eq] at h
      refine ⟨s, ?_, ?_, ?_⟩
      · simp [packField, h]
      · simp [fieldSize, h]
      · rfl
  | str n =>
    cases v with
    | intV i => simp [inRange] at h
    | listV vs => simp [inRange] at h
    | strV s =>
      simp only [inRange, decide_eq_true_eq] at h
      subst h
      refine ⟨s, ?_, ?_, ?_⟩
      · simp [packField]
      · simp [fieldSize]
      · rfl

theorem mqAssign_self (fs : List MQField) :
    mqAssign fs (fs.map fun f => f.value) = some fs := by
  induction fs with
  | nil => rfl
  | cons f fs ih => simp [mqAssign, ih]

theorem mqPack_roundtrip_aux (fs : List MQField)
    (hsv : ∀ f ∈ fs, singleValued f.fmt = true)
    (h : ∀ f ∈ fs, inRange f.fmt f.value = true) :
    ∃ buff, mqPack fs = some buff ∧ buff.length = calcSize fs ∧
      structUnpackValues (fs.map fun f => f.fmt) buff =
        fs.map fun f => f.value := by
  induction fs with
  | nil => exact ⟨[], rfl, rfl, rfl⟩
  | cons f fs ih =>
    obtain ⟨b, hb, hblen, hbdec⟩ :=
      packField_roundtrip f.fmt f.value (hsv f (by simp)) (h f (by simp))
    obtain ⟨rest, hrest, hrestlen, hrestdec⟩ :=
      ih (fun g hg => hsv g (by simp [hg])) (fun g hg => h g (by simp [hg]))
    refine ⟨b ++ rest, ?_, ?_, ?_⟩
    · simp [mqPack, hb, hrest]
    · simp [calcSize, hblen, hrestlen]
    · simp only [List.map_cons, structUnpackValues]
      rw [List.take_left' hblen, List.drop_left' hblen, hbdec, hrestdec]
      rfl

theorem setPairs_names (ps : List (String × FVal)) (n : String) (v : FVal) :
    (setPairs ps n v).map Prod.fst = ps.map Prod.fst := by
  induction ps with
  | nil => rfl
  | cons p ps ih =>
    simp only [setPairs, List.map_cons] at ih ⊢
    by_cases hp : p.1 = n <;> simp [hp, ih]

theorem mqSetAttr_fields_names (inst : MQInst) (n : String) (v : FVal) :
    (mqSetAttr inst n v).fields.map Prod.fst = inst.fields.map Prod.fst := by
  unfold mqSetAttr
  split
  · exact setPairs_names inst.fields n v
  · split <;> rfl

theorem lookupS_setPairs_self (ps : List (String × FVal)) (n : String) (v : FVal)
    (h : hasName ps n = true) : lookupS (setPairs ps n v) n = some v := by
  induction ps with
  | nil => simp [hasName] at h
  | cons p ps ih =>
    simp only [hasName, Bool.or_eq_true, decide_eq_true_eq] at h
    by_cases hp : p.1 = n
    · simp [setPairs, lookupS, hp]
    · have hps : hasName ps n = true := by tauto
      simp only [setPairs] at ih
      simp [setPairs, lookupS, hp, ih hps]

theorem lookupS_setPairs_other (ps : List (String × FVal)) (n m : String)
    (v : FVal) (h : m ≠ n) : lookupS (setPairs ps n v) m = lookupS ps m := by
  induction ps with
  | nil => rfl
  | cons p ps ih =>
    simp only [setPairs] at ih
    by_cases hp : p.1 = n
    · simp [setPairs, lookupS, hp, Ne.symm h, ih]
    · simp only [setPairs, List.map_cons, if_neg hp, lookupS] at ih ⊢
      by_cases hm : p.1 = m <;> simp [hm, ih]

theorem lookupS_of_hasName_false (ps : List (String × FVal)) (n : String)
    (h : hasName ps n = false) : lookupS ps n = none := by
  induction ps with
  | nil => rfl
  | cons p ps ih =>
    simp only [hasName, Bool.or_eq_false_iff, decide_eq_false_iff_not] at h
    simp [lookupS, h.1, ih h.2]

theorem lookupS_append (a b : List (String × FVal)) (n : String) :
    lookupS (a ++ b) n =
      match lookupS a n with
      | some v => some v
      | none => lookupS b n := by
  induction a with
  | nil => rfl
  | cons p ps ih =>
    by_cases hp : p.1 = n <;> simp [lookupS, hp, ih]

theorem mqGetAttr_setAttr_self (inst : MQInst) (n : String) (v : FVal) :
    mqGetAttr (mqSetAttr inst n v) n = some v := by
  unfold mqSetAttr
  split
  · next hf => simp [mqGetAttr, lookupS_setPairs_self inst.fields n v hf]
  · next hf =>
    have hf0 : lookupS inst.fields n = none :=
      lookupS_of_hasName_false _ _ (by revert hf; cases hasName inst.fields n <;> simp)
    split
    · next he => simp [mqGetAttr, hf0, lookupS_setPairs_self inst.extras n v he]
    · next he =>
      have he0 : lookupS inst.extras n = none :=
        lookupS_of_hasName_false _ _ (by revert he; cases hasName inst.extras n <;> simp)
      simp [mqGetAttr, hf0, lookupS_append, he0, lookupS]

theorem mqGetAttr_setAttr_other (inst : MQInst) (n m : String) (v : FVal)
    (h : m ≠ n) : mqGetAttr (mqSetAttr inst n v) m = mqGetAttr inst m := by
  unfold mqSetAttr
  split
  · simp [mqGetAttr, lookupS_setPairs_other inst.fields n m v h]
  · split
    · simp [mqGetAttr, lookupS_setPairs_other inst.extras n m v h]
    · simp only [mqGetAttr, lookupS_append]
      cases lookupS inst.fields m <;> cases hx : lookupS inst.extras m <;>
        simp [hx, lookupS, Ne.symm h]

theorem mqSetItem_ok_inv (inst : MQInst) (n : String) (v : FVal) (inst' : MQInst)
    (h : mqSetItem inst n v = .ok inst') : inst' = mqSetAttr inst n v := by
  unfold mqSetItem at h
  split at h
  · exact (Except.ok.injEq _ _ ▸ h).symm
  · exact absurd h (by simp)

theorem except_bind_ok_inv {ε α β : Type} (x : Except ε α) (f : α → Except ε β)
    (b : β) (h : (x >>= f) = .ok b) : ∃ a, x = .ok a ∧ f a = .ok b := by
  cases x with
  | error e => simp [Bind.bind, Except.bind] at h
  | ok a => exact ⟨a, rfl, by simpa [Bind.bind, Except.bind] using h⟩

theorem string_append_ne_of_length_ne (s a b : String) (h : a.length ≠ b.length) :
    s ++ a ≠ s ++ b := by
  intro hc
  apply h
  have hl := congrArg String.length hc
  simpa [String.length_append] using hl

theorem pySliceFrom_length_le (s : List Nat) (k : Int) :
    (pySliceFrom s k).length ≤ s.length := by
  unfold pySliceFrom
  split <;> simp

theorem parseFolders_spec (parse : List Nat → Option String) (be : Bool) :
    ∀ n (s : List Nat), s.length ≤ n → ∀ acc out,
      parseFolders parse be s acc = .ok out →
      (∃ tail, out = acc ++ tail) ∧
      ((∀ f ∈ out, (f.data.length : Int) = f.folderLength) →
        (out.map fun f => 4 + f.folderLength).sum =
          (acc.map fun f => 4 + f.folderLength).sum + (s.length : Int)) := by
  intro n
  induction n with
  | zero =>
    intro s hs acc out h
    have hsnil : s = [] := List.length_eq_zero.mp (by omega)
    subst hsnil
    rw [parseFolders.eq_def] at h
    simp at h
    subst h
    exact ⟨⟨[], by simp⟩, fun _ => by simp⟩
  | succ n ih =>
    intro s hs acc out h
    rw [parseFolders.eq_def] at h
    split at h
    · next h0 =>
      cases h
      have hsnil : s = [] := by simpa [List.isEmpty_iff] using h0
      exact ⟨⟨[], by simp⟩, fun _ => by simp [hsnil]⟩
    · next h0 =>
      split at h
      · exact absurd h (by simp)
      · next h4 =>
        simp only [] at h
        split at h
        · exact absurd h (by simp)
        · next folder_name hp =>
          have hlen4 : 4 ≤ s.length := by omega
          have hle : (pySliceFrom (s.drop 4)
              (decodeMQLong be (s.take 4))).length ≤ n := by
            have h1 := pySliceFrom_length_le (s.drop 4) (decodeMQLong be (s.take 4))
            simp only [List.length_drop] at h1
            omega
          obtain ⟨⟨tail, htail⟩, hsum⟩ := ih _ hle _ _ h
          constructor
          · exact ⟨Folder.mk folder_name (decodeMQLong be (s.take 4))
              (pySliceTo (s.drop 4) (decodeMQLong be (s.take 4))) :: tail,
              by simp [htail]⟩
          · intro hnt
            set fl := decodeMQLong be (s.take 4) with hfl
            set fd := pySliceTo (s.drop 4) fl with hfd
            have hmem : Folder.mk folder_name fl fd ∈ out := by
              rw [htail]
              simp
            have hdl : (fd.length : Int) = fl := hnt _ hmem
            have hflnn : 0 ≤ fl := by
              have : (0 : Int) ≤ (fd.length : Int) := by positivity
              omega
            have hfdlen : fd.length = min fl.toNat (s.drop 4).length := by
              rw [hfd]
              unfold pySliceTo
              rw [if_pos hflnn]
              simp
            have hfllen : fl.toNat ≤ (s.drop 4).length := by omega
            have hdrop : (pySliceFrom (s.drop 4) fl).length =
                (s.drop 4).length - fl.toNat := by
              unfold pySliceFrom
              rw [if_pos hflnn]
              simp only [List.length_drop]
            rw [hsum hnt]
            rw [hdrop]
            simp only [List.map_append, List.sum_append, List.map_cons,
              List.map_nil, List.sum_cons, List.sum_nil]
            simp only [List.length_drop] at hfdlen hfllen ⊢
            omega

theorem rfh2Length_no_padding (flag : Bool) (fs : List Folder)
    (h : ∀ f ∈ fs, f.folderLength % 4 = 0) :
    ∀ off : Int, off % 4 = 0 →
      fs.foldl (fun o f => alignTo4 flag o + 4 + f.folderLength) off =
        off + (fs.map fun f => 4 + f.folderLength).sum := by
  induction fs with
  | nil =>
    intro off _
    simp
  | cons f fs ih =>
    intro off hoff
    have hf : f.folderLength % 4 = 0 := h f (by simp)
    have halign : alignTo4 flag off = off := by
      unfold alignTo4
      split
      · rfl
      · omega
    simp only [List.foldl_cons, List.map_cons, List.sum_cons, halign]
    rw [ih (fun g hg => h g (by simp [hg])) (off + 4 + f.folderLength) (by omega)]
    ring

theorem operator_mapping_ne_zero (s : String) (op : Int)
    (h : operator_mapping s = some op) : ¬ op = 0 := by
  unfold operator_mapping at h
  split at h <;> simp_all <;> omega

theorem parseFolders_nil (parse : List Nat → Option String) (be : Bool)
    (acc : List Folder) : parseFolders parse be [] acc = .ok acc := by
  rw [parseFolders.eq_def]
  simp

theorem parseFolders_lying :
    parseFolders xmlParseAb false [9, 0, 0, 0, 60, 97, 98, 47, 62] [] =
      .ok [⟨"ab", 9, [60, 97, 98, 47, 62]⟩] := by
  rw [parseFolders.eq_def]
  norm_num [decodeMQLong, bytesToNatLE, pySliceTo, pySliceFrom, xmlParseAb]
  rw [parseFolders.eq_def]
  norm_num

theorem parseFolders_good :
    parseFolders xmlParseAb false [8, 0, 0, 0, 60, 97, 98, 47, 62, 32, 32, 32] [] =
      .ok [⟨"ab", 8, [60, 97, 98, 47, 62, 32, 32, 32]⟩] := by
  rw [parseFolders.eq_def]
  norm_num [decodeMQLong, bytesToNatLE, pySliceTo, pySliceFrom, xmlParseAb]
  rw [parseFolders.eq_def]
  norm_num

/-! ## Claim theorems -/

/-- C1 counterexample: the `cd` schema's array field `HdrCompList`
(format `'2l'`, list default) breaks the round trip — `pack` flattens the
list, but the unpack loop assigns one result-tuple element per field, so
after `unpack(pack(..))` the array field holds only its first element and
the following field receives the array's second element. -/
theorem mqopts_pack_unpack_roundtrip_cex :
    mqPack cdArraySchema = some [0, 0, 0, 0, 5, 0, 0, 0, 3, 0, 0, 0] ∧
    mqUnpack cdArraySchema [0, 0, 0, 0, 5, 0, 0, 0, 3, 0, 0, 0] =
      some [⟨"HdrCompList", .intV 0, .numArr 2 4 true false⟩,
            ⟨"CLWLChannelRank", .intV 5, .num 4 true false⟩] ∧
    ([⟨"HdrCompList", .intV 0, .numArr 2 4 true false⟩,
      ⟨"CLWLChannelRank", .intV 5, .num 4 true false⟩] : List MQField) ≠
      cdArraySchema := by
  refine ⟨by decide, by decide, by decide⟩

/-- C1 (amended): for every structure instance built over a schema whose
fields all use single-value format codes — every code the source's
schemas use except the repeat-count arrays `'2l'`/`'16l'` of the `cd`
schema — with every field value within its wire format's representable
range, `unpack` on the bytes produced by `pack` restores the instance,
field by field in schema order. -/
theorem mqopts_pack_unpack_roundtrip (fs : List MQField)
    (hsv : ∀ f ∈ fs, singleValued f.fmt = true)
    (h : ∀ f ∈ fs, inRange f.fmt f.value = true) :
    ∃ buff, mqPack fs = some buff ∧ mqUnpack fs buff = some fs := by
  obtain ⟨buff, hpack, hlen, hdec⟩ := mqPack_roundtrip_aux fs hsv h
  refine ⟨buff, hpack, ?_⟩
  simp [mqUnpack, hlen, hdec, mqAssign_self]

/-- C1 witness: the round trip at a concrete instance covering every
single-value wire format the source's schemas use. -/
theorem mqopts_pack_unpack_roundtrip_witness :
    (∀ f ∈ sampleInstance, singleValued f.fmt = true) ∧
    (∀ f ∈ sampleInstance, inRange f.fmt f.value = true) ∧
    ∃ buff, mqPack sampleInstance = some buff ∧
      mqUnpack sampleInstance buff = some sampleInstance :=
  ⟨by decide, by decide,
    mqopts_pack_unpack_roundtrip sampleInstance (by decide) (by decide)⟩

/-- C8 counterexample: `"pack"` is absent from the schema of `sampleInst`,
yet dictionary-style assignment and keyword-batch `set` both succeed — the
`getattr` guard finds the class method `pack` — silently adding an instance
attribute instead of raising `AttributeError`. -/
theorem mqopts_set_unknown_name_cex :
    hasName sampleInst.fields "pack" = false ∧
    mqSetItem sampleInst "pack" (.intV 42) =
      .ok ⟨sampleInst.fields, [("pack", .intV 42)]⟩ ∧
    mqSet sampleInst [("pack", .intV 42)] =
      .ok ⟨sampleInst.fields, [("pack", .intV 42)]⟩ := by
  refine ⟨by decide, by decide, by decide⟩

/-- C8 (amended): setting a name that is no attribute of the instance at
all — neither a schema field, nor an added instance attribute, nor a class
attribute/method — fails with `AttributeError` under both dictionary-style
assignment and keyword-batch `set`; and no successful set ever adds a field
to the schema-backed field list (a name passing the guard that is not a
schema field lands among the instance's extra attributes). -/
theorem mqopts_set_unknown_attr (inst : MQInst) (n : String) (v : FVal)
    (h : mqHasAttr inst n = false) :
    mqSetItem inst n v = .error (.attributeError n) ∧
    (∀ rest, mqSet inst ((n, v) :: rest) = .error (.attributeError n)) ∧
    (∀ inst₂ key u inst₂', mqSetItem inst₂ key u = .ok inst₂' →
      inst₂'.fields.map Prod.fst = inst₂.fields.map Prod.fst) ∧
    (∀ inst₂ kw inst₂', mqSet inst₂ kw = .ok inst₂' →
      inst₂'.fields.map Prod.fst = inst₂.fields.map Prod.fst) := by
  have hitem : ∀ inst₂ key u inst₂', mqSetItem inst₂ key u = .ok inst₂' →
      inst₂'.fields.map Prod.fst = inst₂.fields.map Prod.fst := by
    intro inst₂ key u inst₂' hok
    rw [mqSetItem_ok_inv _ _ _ _ hok]
    exact mqSetAttr_fields_names inst₂ key u
  refine ⟨?_, ?_, hitem, ?_⟩
  · simp [mqSetItem, h]
  · intro rest
    simp [mqSet, mqSetItem, h, Bind.bind, Except.bind]
  · intro inst₂ kw
    induction kw generalizing inst₂ with
    | nil =>
      intro inst₂' hok
      simp only [mqSet] at hok
      cases hok
      rfl
    | cons p rest ih =>
      intro inst₂' hok
      simp only [mqSet] at hok
      obtain ⟨mid, hmid, hrest⟩ := except_bind_ok_inv _ _ _ hok
      calc inst₂'.fields.map Prod.fst = mid.fields.map Prod.fst := ih mid inst₂' hrest
        _ = inst₂.fields.map Prod.fst := hitem _ _ _ _ hmid

/-- C8 witness: the amended theorem at a concrete instance and the genuinely
unknown name `"Flop"`. -/
theorem mqopts_set_unknown_attr_witness :
    mqSetItem sampleInst "Flop" (.intV 7) = .error (.attributeError "Flop") ∧
    (∀ rest, mqSet sampleInst (("Flop", .intV 7) :: rest) =
      .error (.attributeError "Flop")) ∧
    (∀ inst₂ key u inst₂', mqSetItem inst₂ key u = .ok inst₂' →
      inst₂'.fields.map Prod.fst = inst₂.fields.map Prod.fst) ∧
    (∀ inst₂ kw inst₂', mqSet inst₂ kw = .ok inst₂' →
      inst₂'.fields.map Prod.fst = inst₂.fields.map Prod.fst) :=
  mqopts_set_unknown_attr sampleInst "Flop" (.intV 7) (by decide)

/-- C9 counterexample: `set_vs` with the default (no value supplied) raises
`TypeError` — `len(None)` — so the call never completes and `VSLength` is
not set to any value's size. -/
theorem set_vs_default_none_cex :
    mqSetVs (fun _ => 1) vsInst "ObjectString" none 0 0 0 = .error .typeError := by
  decide

/-- C9 (amended): for every value actually supplied to `set_vs`, after a
successful call the field's `VSLength` component equals the size of that
value; with the default (no value), the call always fails with `TypeError`
before `VSLength` is assigned. -/
theorem set_vs_length_reflects_value (ptrOf : List Nat → Int) (inst : MQInst)
    (vs_name : String) (v : List Nat) (off bufsz ccsid : Int) (inst' : MQInst)
    (hok : mqSetVs ptrOf inst vs_name (some v) off bufsz ccsid = .ok inst') :
    mqGetAttr inst' (vs_name ++ "VSLength") = some (.intV (v.length : Int)) ∧
    (∀ inst₂ off₂ b₂ c₂, ∃ e,
      mqSetVs ptrOf inst₂ vs_name none off₂ b₂ c₂ = .error e) := by
  constructor
  · unfold mqSetVs at hok
    obtain ⟨i₁, h₁, hok⟩ := except_bind_ok_inv _ _ _ hok
    obtain ⟨i₂, h₂, hok⟩ := except_bind_ok_inv _ _ _ hok
    obtain ⟨i₃, h₃, hok⟩ := except_bind_ok_inv _ _ _ hok
    obtain ⟨i₄, h₄, hok⟩ := except_bind_ok_inv _ _ _ hok
    rw [mqSetItem_ok_inv _ _ _ _ hok]
    rw [mqGetAttr_setAttr_other _ _ _ _
      (string_append_ne_of_length_ne vs_name "VSLength" "VSCCSID" (by decide))]
    rw [mqSetItem_ok_inv _ _ _ _ h₄]
    exact mqGetAttr_setAttr_self i₃ _ _
  · intro inst₂ off₂ b₂ c₂
    unfold mqSetVs
    cases h₁ : mqSetItem inst₂
        (if strEndsWith vs_name "VSPtr" then vs_name else vs_name ++ "VSPtr")
        (.intV 0) with
    | error e => exact ⟨e, by simp [h₁, Bind.bind, Except.bind]⟩
    | ok i₁ =>
      cases h₂ : mqSetItem i₁ (vs_name ++ "VSOffset") (.intV off₂) with
      | error e => exact ⟨e, by simp [h₁, h₂, Bind.bind, Except.bind]⟩
      | ok i₂ =>
        cases h₃ : mqSetItem i₂ (vs_name ++ "VSBufSize") (.intV b₂) with
        | error e => exact ⟨e, by simp [h₁, h₂, h₃, Bind.bind, Except.bind]⟩
        | ok i₃ =>
          exact ⟨.typeError, by simp [h₁, h₂, h₃, Bind.bind, Except.bind]⟩

/-- C9 witness: the amended theorem at the concrete `ObjectString` instance
with the value `"abc"` (length 3). -/
theorem set_vs_length_reflects_value_witness :
    mqGetAttr
      ⟨[("ObjectStringVSPtr", .intV 1), ("ObjectStringVSOffset", .intV 0),
        ("ObjectStringVSBufSize", .intV 0), ("ObjectStringVSLength", .intV 3),
        ("ObjectStringVSCCSID", .intV 0)], []⟩ ("ObjectString" ++ "VSLength") =
      some (.intV ((3 : Nat) : Int)) ∧
    (∀ inst₂ off₂ b₂ c₂, ∃ e,
      mqSetVs (fun _ => 1) inst₂ "ObjectString" none off₂ b₂ c₂ = .error e) := by
  have h := set_vs_length_reflects_value (fun _ => 1) vsInst "ObjectString"
    [97, 98, 99] 0 0 0
    ⟨[("ObjectStringVSPtr", .intV 1), ("ObjectStringVSOffset", .intV 0),
      ("ObjectStringVSBufSize", .intV 0), ("ObjectStringVSLength", .intV 3),
      ("ObjectStringVSCCSID", .intV 0)], []⟩ (by decide)
  exact ⟨by simpa using h.1, h.2⟩

/-- C3 counterexample: a 36-byte buffer accepted past the magic and
minimum-length checks whose declared total length (100) exceeds the actual
buffer length (36) is not rejected: the oversized check is guarded by
`len(buff) > 36`, so `unpack` succeeds. -/
theorem rfh2_unpack_oversized_accepted_cex :
    rfh2Buff36.length = 36 ∧
    rfh2Unpack (fun _ => none) rfh2Buff36 none =
      .ok { StrucId := [82, 70, 72, 32], Version := 2, StrucLength := 100,
            Encoding := 546, CodedCharSetId := 0,
            Format := [32, 32, 32, 32, 32, 32, 32, 32], Flags := 0,
            NameValueCCSID := 0, folders := [] } := by
  refine ⟨by decide, ?_⟩
  unfold rfh2Unpack
  norm_num [MQRFH_STRUC_ID, rfh2Buff36, rfh2BigEndian, rfh2UnpackPreamble,
    decodeMQLong, bytesToNatLE, pySlice]
  rw [show List.drop 36 (List.take (Int.toNat 100)
      [82, 70, 72, 32, 2, 0, 0, 0, 100, 0, 0, 0, 34, 2, 0, 0, 0, 0, 0, 0,
       32, 32, 32, 32, 32, 32, 32, 32, 0, 0, 0, 0, 0, 0, 0, 0]) =
      ([] : List Nat) from by decide,
    parseFolders_nil]

/-- C3 (amended): for every buffer accepted past the magic and
minimum-length checks, `RFH2.unpack` fails with a hard error whenever the
decoded declared total length is negative; and, whenever the buffer is
strictly longer than 36 bytes, it fails with a hard error whenever the
declared total length exceeds the actual buffer length (on a buffer of
exactly 36 bytes that check is skipped). -/
theorem rfh2_unpack_length_checks (parse : List Nat → Option String)
    (buff : List Nat) (encoding : Option Int)
    (hmagic : buff.take 4 = MQRFH_STRUC_ID) (hlen : 36 ≤ buff.length) :
    ((rfh2UnpackPreamble (rfh2BigEndian encoding buff) buff).StrucLength < 0 →
      rfh2Unpack parse buff encoding =
        .error (.pyif "RFH2 - StrucLength is negative.")) ∧
    (36 < buff.length →
      (buff.length : Int) <
        (rfh2UnpackPreamble (rfh2BigEndian encoding buff) buff).StrucLength →
      rfh2Unpack parse buff encoding =
        .error (.pyif "RFH2 - Buffer too short for StrucLength.")) := by
  constructor
  · intro hneg
    simp only [rfh2Unpack]
    rw [if_neg (by simp [hmagic]), if_neg (by omega), if_pos hneg]
  · intro hgt hover
    simp only [rfh2Unpack]
    rw [if_neg (by simp [hmagic]), if_neg (by omega), if_neg (by omega),
      if_pos ⟨hgt, hover⟩]

/-- C3 witness: the amended checks firing at two concrete buffers — one
with `StrucLength` -1, one 37 bytes long with `StrucLength` 100. -/
theorem rfh2_unpack_length_checks_witness :
    rfh2Unpack (fun _ => none) rfh2BuffNeg none =
      .error (.pyif "RFH2 - StrucLength is negative.") ∧
    rfh2Unpack (fun _ => none) rfh2BuffOver none =
      .error (.pyif "RFH2 - Buffer too short for StrucLength.") :=
  ⟨(rfh2_unpack_length_checks (fun _ => none) rfh2BuffNeg none (by decide)
      (by decide)).1 (by decide),
   (rfh2_unpack_length_checks (fun _ => none) rfh2BuffOver none (by decide)
      (by decide)).2 (by decide) (by decide)⟩

/-- C4 counterexample: `rfh2BuffLying` unpacks successfully to an instance
whose single folder stores the wire-declared raw length 9 — not a multiple
of 4 — and whose `StrucLength` (45) differs from the packed byte length
(36 + 4 + 9 = 49): neither invariant is re-established by `unpack`. -/
theorem rfh2_unpack_invariants_cex :
    rfh2Unpack xmlParseAb rfh2BuffLying none = .ok rfh2LyingResult ∧
    (∃ f ∈ rfh2LyingResult.folders, ¬ f.folderLength % 4 = 0) ∧
    rfh2LyingResult.StrucLength ≠ rfh2Length rfh2LyingResult := by
  refine ⟨?_, by decide, by decide⟩
  unfold rfh2Unpack
  norm_num [MQRFH_STRUC_ID, rfh2BuffLying, rfh2BigEndian, rfh2UnpackPreamble,
    decodeMQLong, bytesToNatLE, pySlice, rfh2LyingResult]
  rw [show List.drop 36 (List.take (Int.toNat 45)
      [82, 70, 72, 32, 2, 0, 0, 0, 45, 0, 0, 0, 34, 2, 0, 0, 0, 0, 0, 0,
       32, 32, 32, 32, 32, 32, 32, 32, 0, 0, 0, 0, 0, 0, 0, 0,
       9, 0, 0, 0, 60, 97, 98, 47, 62]) =
      [9, 0, 0, 0, 60, 97, 98, 47, 62] from by decide,
    parseFolders_lying]

/-- C4 (amended): after any `add_folder`, `StrucLength` equals the exact
packed byte length of the header including all folders and — provided it
held of the folders already present — every folder's stored raw length is
a multiple of 4, spaces-padded.  After a successful `unpack`,
`StrucLength` equals the wire-declared value, and it equals the exact
packed byte length whenever the declared value is at least 36, at most the
buffer length, every parsed folder's declared length matches its data,
and every parsed folder's declared length is a multiple of 4 (otherwise
native-mode alignment padding makes the packed length exceed the wire
layout); the folders' stored raw lengths are the wire length prefixes
as-is, not re-padded to multiples of 4. -/
theorem rfh2_invariants (parse : List Nat → Option String) :
    (∀ r fd r', rfh2AddFolder parse r fd = .ok r' →
      r'.StrucLength = rfh2Length r' ∧
      ((∀ f ∈ r.folders, f.folderLength % 4 = 0) →
        ∀ f ∈ r'.folders, f.folderLength % 4 = 0)) ∧
    (∀ buff encoding r', rfh2Unpack parse buff encoding = .ok r' →
      r'.StrucLength =
        (rfh2UnpackPreamble (rfh2BigEndian encoding buff) buff).StrucLength ∧
      ((∀ f ∈ r'.folders, (f.data.length : Int) = f.folderLength) →
        (∀ f ∈ r'.folders, f.folderLength % 4 = 0) →
        36 ≤ r'.StrucLength → r'.StrucLength ≤ (buff.length : Int) →
        r'.StrucLength = rfh2Length r')) := by
  constructor
  · intro r fd r' hok
    cases hp : parse fd with
    | none => rw [rfh2AddFolder, hp] at hok; exact absurd hok (by simp)
    | some name =>
      rw [rfh2AddFolder, hp] at hok
      simp only [Except.ok.injEq] at hok
      subst hok
      constructor
      · simp [rfh2Length]
      · intro hold f hf
        simp only [List.mem_append, List.mem_singleton] at hf
        rcases hf with hf | hf
        · exact hold f hf
        · subst hf
          dsimp only
          by_cases hr : fd.length % 4 = 0
          · rw [if_neg (by omega)]
            omega
          · rw [if_pos (by omega)]
            simp only [List.length_append, List.length_replicate]
            omega
  · intro buff encoding r' hok
    simp only [rfh2Unpack] at hok
    split at hok
    · exact absurd hok (by simp)
    · split at hok
      · exact absurd hok (by simp)
      · split at hok
        · exact absurd hok (by simp)
        · split at hok
          · exact absurd hok (by simp)
          · next hneg hover =>
            split at hok
            · exact absurd hok (by simp)
            · next folders hpf =>
              simp only [Except.ok.injEq] at hok
              subst hok
              refine ⟨rfl, ?_⟩
              intro hnt hm4 h36 hbuf
              simp only [] at hnt h36 hbuf ⊢
              set be := rfh2BigEndian encoding buff with hbe
              set L := (rfh2UnpackPreamble be buff).StrucLength with hL
              have hLnn : 0 ≤ L := by omega
              have hslen : (pySlice buff 36 L).length = L.toNat - 36 := by
                simp only [pySlice, if_pos hLnn, List.length_drop,
                  List.length_take]
                omega
              obtain ⟨-, hsum⟩ := parseFolders_spec parse be
                (pySlice buff 36 L).length (pySlice buff 36 L) le_rfl [] folders hpf
              have hs := hsum hnt
              simp only [List.map_nil, List.sum_nil, zero_add, hslen] at hs
              have hfold := rfh2Length_no_padding
                (rfh2UnpackPreamble be buff).bigEndianFmt folders hm4 36
                (by norm_num)
              simp only [rfh2Length]
              rw [hfold, hs]
              omega

/-- C4 witness: the amended theorem at concrete inputs — `add_folder` of
`"<ab/>"` (padded to 8 bytes) on a fresh header, and `unpack` of the
consistent one-folder buffer `rfh2BuffGood`; both yield `rfh2AddResult`
and satisfy the invariants. -/
theorem rfh2_invariants_witness :
    (rfh2AddFolder xmlParseAb {} [60, 97, 98, 47, 62] = .ok rfh2AddResult ∧
      rfh2AddResult.StrucLength = rfh2Length rfh2AddResult ∧
      (∀ f ∈ rfh2AddResult.folders, f.folderLength % 4 = 0)) ∧
    (rfh2Unpack xmlParseAb rfh2BuffGood none = .ok rfh2AddResult ∧
      rfh2AddResult.StrucLength =
        (rfh2UnpackPreamble (rfh2BigEndian none rfh2BuffGood)
          rfh2BuffGood).StrucLength ∧
      rfh2AddResult.StrucLength = rfh2Length rfh2AddResult) := by
  have hgood : rfh2Unpack xmlParseAb rfh2BuffGood none = .ok rfh2AddResult := by
    unfold rfh2Unpack
    norm_num [MQRFH_STRUC_ID, rfh2BuffGood, rfh2BigEndian, rfh2UnpackPreamble,
      decodeMQLong, bytesToNatLE, pySlice, rfh2AddResult]
    rw [show List.drop 36 (List.take (Int.toNat 48)
        [82, 70, 72, 32, 2, 0, 0, 0, 48, 0, 0, 0, 34, 2, 0, 0, 0, 0, 0, 0,
         32, 32, 32, 32, 32, 32, 32, 32, 0, 0, 0, 0, 0, 0, 0, 0,
         8, 0, 0, 0, 60, 97, 98, 47, 62, 32, 32, 32]) =
        [8, 0, 0, 0, 60, 97, 98, 47, 62, 32, 32, 32] from by decide,
      parseFolders_good]
  have h := rfh2_invariants xmlParseAb
  have hadd := h.1 {} [60, 97, 98, 47, 62] rfh2AddResult (by decide)
  have hunp := h.2 rfh2BuffGood none rfh2AddResult hgood
  exact ⟨⟨by decide, hadd.1, hadd.2 (by decide)⟩,
    ⟨hgood, hunp.1, hunp.2 (by decide) (by decide) (by decide) (by decide)⟩⟩

/-- C2 counterexample: with the caller-supplied explicit max length -1 and
a truncated first completion, no `MQMIError` is raised and a retry IS
issued — the call returns the second payload after two transport gets —
because the no-retry guard requires `maxLength >= 0`. -/
theorem queue_get_explicit_negative_cex :
    queueGet (fun _ _ => ⟨0, [], 0, 0⟩) truncT openQueue [5] [6] (some (-1)) =
      (.ok ([1, 2, 3, 4, 5, 6, 7, 8, 9], openQueue, [7], [8]),
       [⟨[5], -1⟩, ⟨[7], 9⟩]) := by
  decide

/-- C2 (amended): on an open queue, with no max length supplied, a first
transport get (issued with length 4096) returning a truncated completion
reporting true length L issues exactly one additional transport get — with
length L and the descriptor unpacked from the first reply — and that
second call's payload is returned; with a caller-supplied non-negative max
length, a truncated completion raises `MQMIError` with no retry issued.
(A negative caller-supplied max length instead follows the retry path.) -/
theorem queue_get_truncation_policy
    (openT : List Nat → Option Int → OpenResult) (getT : Nat → GetResult)
    (q : Queue) (mdBuf gmoBuf : List Nat) (h : Int)
    (hq : q.qHandle = some h) (hh : h ≠ 0) (hc : (getT 0).comp ≠ 0) :
    ((getT 0).reason = MQRC_TRUNCATED_MSG_FAILED → (getT 1).comp = 0 →
      queueGet openT getT q mdBuf gmoBuf none =
        (.ok ((getT 1).msg, q, (getT 1).mdBuf, (getT 1).gmoBuf),
         [⟨mdBuf, 4096⟩, ⟨(getT 0).mdBuf, (getT 0).origLen⟩])) ∧
    (∀ m : Int, 0 ≤ m →
      queueGet openT getT q mdBuf gmoBuf (some m) =
        (.error (.mqmi (getT 0).comp (getT 0).reason), [⟨mdBuf, m⟩])) := by
  have htruthy : handleTruthy q.qHandle = true := by
    simp [handleTruthy, hq, hh]
  constructor
  · intro hr h2
    simp [queueGet, queueGetRetry, htruthy, hc, hr, h2]
  · intro m hm
    simp [queueGet, htruthy, hc, hm]

/-- C2 witness: the amended policy at a concrete transport whose first get
is truncated with true length 9 — the default call retries once with
length 9 and returns the 9-byte payload; an explicit max length of 100
raises the truncation as `MQMIError` after one call. -/
theorem queue_get_truncation_policy_witness :
    (queueGet okOpenT truncT openQueue [5] [6] none =
      (.ok ([1, 2, 3, 4, 5, 6, 7, 8, 9], openQueue, [7], [8]),
       [⟨[5], 4096⟩, ⟨[7], 9⟩])) ∧
    (queueGet okOpenT truncT openQueue [5] [6] (some 100) =
      (.error (.mqmi 2 2080), [⟨[5], 100⟩])) := by
  have h := queue_get_truncation_policy okOpenT truncT openQueue [5] [6] 1
    (by decide) (by decide) (by decide)
  exact ⟨h.1 (by decide) (by decide), h.2 100 (by decide)⟩

/-- C10: a caller-supplied negative maxLength is not raised as an error on
a truncated first completion (reason `MQRC_TRUNCATED_MSG_FAILED`); the
call follows the same single-retry path as the default (`None`) buffer,
reissuing the get once with the reported true length and returning the
second call's payload — the no-retry rule applies only to non-negative
max lengths. -/
theorem queue_get_negative_maxlength_retries
    (openT : List Nat → Option Int → OpenResult) (getT : Nat → GetResult)
    (q : Queue) (mdBuf gmoBuf : List Nat) (h m : Int)
    (hq : q.qHandle = some h) (hh : h ≠ 0) (hm : m < 0)
    (hc : (getT 0).comp ≠ 0)
    (hr : (getT 0).reason = MQRC_TRUNCATED_MSG_FAILED)
    (h2 : (getT 1).comp = 0) :
    queueGet openT getT q mdBuf gmoBuf (some m) =
      (.ok ((getT 1).msg, q, (getT 1).mdBuf, (getT 1).gmoBuf),
       [⟨mdBuf, m⟩, ⟨(getT 0).mdBuf, (getT 0).origLen⟩]) := by
  have htruthy : handleTruthy q.qHandle = true := by
    simp [handleTruthy, hq, hh]
  have hm' : ¬ (0 ≤ m) := by omega
  simp [queueGet, queueGetRetry, htruthy, hc, hm', hr, h2]

/-- C10 witness: with max length -4 and a first get truncated at true
length 5, the get is reissued once with length 5 and its payload
returned. -/
theorem queue_get_negative_maxlength_retries_witness :
    queueGet okOpenT truncT2 openQueue [1] [2] (some (-4)) =
      (.ok ([9, 8, 7, 6, 5], openQueue, [11], [12]),
       [⟨[1], -4⟩, ⟨[11], 5⟩]) :=
  queue_get_negative_maxlength_retries okOpenT truncT2 openQueue [1] [2] 1 (-4)
    (by decide) (by decide) (by decide) (by decide) (by decide) (by decide)

/-- C5: the open-deferral truth table.  With neither a descriptor nor open
options the handle stays unset after construction (and a put fails for
want of a descriptor, so an explicit open is required); with a descriptor
only, the handle stays unset after construction and the first `open` with
options, `get`, or `put` performs the open; with both, the open happens
during construction and the handle is set to the transport's returned
handle. -/
theorem queue_open_deferral
    (openT : List Nat → Option Int → OpenResult)
    (putT : Option Int → List Nat → List Nat → List Nat → PutResult)
    (getT : Nat → GetResult) (d : List Nat) (o : Int)
    (msg mdBuf pmoBuf gmoBuf : List Nat) :
    (queueInit openT .noArgs = .ok ⟨none, none, none⟩ ∧
      queuePut openT putT ⟨none, none, none⟩ msg mdBuf pmoBuf =
        .error (.pyif "The Queue Descriptor has not been set.")) ∧
    (queueInit openT (.descOnly d) = .ok ⟨none, some d, none⟩ ∧
      ((openT d (some MQOO_INPUT_AS_Q_DEF)).comp = 0 → (getT 0).comp = 0 →
        queueGet openT getT ⟨none, some d, none⟩ mdBuf gmoBuf none =
          (.ok ((getT 0).msg,
            ⟨some (openT d (some MQOO_INPUT_AS_Q_DEF)).handle,
             some (openT d (some MQOO_INPUT_AS_Q_DEF)).odBuf,
             some MQOO_INPUT_AS_Q_DEF⟩,
            (getT 0).mdBuf, (getT 0).gmoBuf), [⟨mdBuf, 4096⟩])) ∧
      ((openT d (some MQOO_OUTPUT)).comp = 0 →
        (putT (some (openT d (some MQOO_OUTPUT)).handle) mdBuf pmoBuf
          msg).comp = 0 →
        queuePut openT putT ⟨none, some d, none⟩ msg mdBuf pmoBuf =
          .ok (⟨some (openT d (some MQOO_OUTPUT)).handle,
                some (openT d (some MQOO_OUTPUT)).odBuf, some MQOO_OUTPUT⟩,
            (putT (some (openT d (some MQOO_OUTPUT)).handle) mdBuf pmoBuf
              msg).mdBuf,
            (putT (some (openT d (some MQOO_OUTPUT)).handle) mdBuf pmoBuf
              msg).pmoBuf)) ∧
      ((openT d (some o)).comp = 0 →
        queueOpen openT ⟨none, some d, none⟩ d (some o) =
          .ok ⟨some (openT d (some o)).handle, some (openT d (some o)).odBuf,
            some o⟩)) ∧
    ((openT d (some o)).comp = 0 →
      queueInit openT (.descOpts d o) =
        .ok ⟨some (openT d (some o)).handle, some (openT d (some o)).odBuf,
          some o⟩) := by
  refine ⟨⟨rfl, ?_⟩, ⟨rfl, ?_, ?_, ?_⟩, ?_⟩
  · simp [queuePut, realOpen, handleTruthy, Bind.bind, Except.bind]
  · intro hopen hget
    simp [queueGet, realOpen, handleTruthy, hopen, hget]
  · intro hopen hput
    simp [queuePut, realOpen, handleTruthy, hopen, hput, Bind.bind, Except.bind]
  · intro hopen
    simp [queueOpen, realOpen, handleTruthy, hopen]
  · intro hopen
    simp [queueInit, realOpen, hopen]

/-- C5 witness: the truth table at a concrete always-succeeding transport
(handle 7): construction with descriptor and options opens immediately;
get and put on a descriptor-only queue open lazily. -/
theorem queue_open_deferral_witness :
    queueInit okOpenT (.descOpts [9] 5) = .ok ⟨some 7, some [9], some 5⟩ ∧
    queueGet okOpenT okGetT ⟨none, some [9], none⟩ [3] [4] none =
      (.ok ([1, 2], ⟨some 7, some [9], some MQOO_INPUT_AS_Q_DEF⟩, [3], [4]),
       [⟨[3], 4096⟩]) ∧
    queuePut okOpenT okPutT ⟨none, some [9], none⟩ [8] [3] [4] =
      .ok (⟨some 7, some [9], some MQOO_OUTPUT⟩, [3], [4]) := by
  have h := queue_open_deferral okOpenT okPutT okGetT [9] 5 [8] [3] [4] [4]
  exact ⟨h.2.2 (by decide), h.2.1.2.1 (by decide) (by decide),
    h.2.1.2.2.1 (by decide) (by decide)⟩

/-- C6: a selector in the integer attribute range with a mapped operator
name always yields an integer-typed filter; in the string attribute range,
a string-typed filter; outside both ranges the call always fails with an
error (whatever the operator); and an operator name absent from the fixed
mapping always fails with an error. -/
theorem filter_operator_classification {α : Type} (selector : Int)
    (operatorName : String) (value : α) :
    (MQIA_FIRST ≤ selector → selector ≤ MQIA_LAST →
      ∀ op, operator_mapping operatorName = some op →
      filterOperatorCall selector operatorName value =
        .ok ⟨.integer, selector, value, op⟩) ∧
    (MQCA_FIRST ≤ selector → selector ≤ MQCA_LAST →
      ∀ op, operator_mapping operatorName = some op →
      filterOperatorCall selector operatorName value =
        .ok ⟨.string, selector, value, op⟩) ∧
    (¬ (MQIA_FIRST ≤ selector ∧ selector ≤ MQIA_LAST) →
      ¬ (MQCA_FIRST ≤ selector ∧ selector ≤ MQCA_LAST) →
      filterOperatorCall selector operatorName value =
        .error "selector is of an unsupported type") ∧
    (operator_mapping operatorName = none →
      ∃ e, filterOperatorCall selector operatorName value = .error e) := by
  refine ⟨?_, ?_, ?_, ?_⟩
  · intro h1 h2 op hop
    rw [filterOperatorCall, if_pos ⟨h1, h2⟩, finishFilter, hop]
    simp [operator_mapping_ne_zero _ _ hop]
  · intro h1 h2 op hop
    have hni : ¬ (MQIA_FIRST ≤ selector ∧ selector ≤ MQIA_LAST) := by
      simp only [MQIA_FIRST, MQIA_LAST, MQCA_FIRST, MQCA_LAST] at *
      omega
    rw [filterOperatorCall, if_neg hni, if_pos ⟨h1, h2⟩, finishFilter, hop]
    simp [operator_mapping_ne_zero _ _ hop]
  · intro h1 h2
    rw [filterOperatorCall, if_neg h1, if_neg h2]
  · intro hn
    by_cases h1 : MQIA_FIRST ≤ selector ∧ selector ≤ MQIA_LAST
    · exact ⟨_, by rw [filterOperatorCall, if_pos h1, finishFilter, hn]⟩
    · by_cases h2 : MQCA_FIRST ≤ selector ∧ selector ≤ MQCA_LAST
      · exact ⟨_, by rw [filterOperatorCall, if_neg h1, if_pos h2,
          finishFilter, hn]⟩
      · exact ⟨_, by rw [filterOperatorCall, if_neg h1, if_neg h2]⟩

/-- C6 witness: selector 1 with operator `equal` gives an integer filter,
selector 2001 with `like` a string filter, selector 5000 always fails,
and the unknown operator name `frobnicate` always fails. -/
theorem filter_operator_classification_witness :
    filterOperatorCall 1 "equal" (42 : Int) = .ok ⟨.integer, 1, 42, 2⟩ ∧
    filterOperatorCall 2001 "like" (42 : Int) = .ok ⟨.string, 2001, 42, 18⟩ ∧
    filterOperatorCall 5000 "equal" (42 : Int) =
      .error "selector is of an unsupported type" ∧
    (∃ e, filterOperatorCall 1 "frobnicate" (42 : Int) = .error e) := by
  refine ⟨?_, ?_, ?_, ?_⟩
  · exact (filter_operator_classification 1 "equal" (42 : Int)).1
      (by decide) (by decide) 2 (by decide)
  · exact (filter_operator_classification 2001 "like" (42 : Int)).2.1
      (by decide) (by decide) 18 (by decide)
  · exact (filter_operator_classification 5000 "equal" (42 : Int)).2.2.1
      (by decide) (by decide)
  · exact (filter_operator_classification 1 "frobnicate" (42 : Int)).2.2.2
      (by decide)

/-- C7: `stringifyKeys` is total (no exception: the `KeyError` branch is
the fallback) and maps the raw mapping entry-by-entry, preserving its
size: a key found in the table chosen by its value's type (string values
consult the string-attribute table, others the integer one) is replaced
by its symbolic name with the value unchanged, and a key in neither table
is kept unchanged with its value. -/
theorem stringify_keys_spec (caDict iaDict : Int → Option String)
    (raw : List (Int × PCFVal)) :
    (stringifyKeys caDict iaDict raw).length = raw.length ∧
    (∀ (i : Nat) k v name, raw[i]? = some (k, v) →
      (match v with | .str _ => caDict | .int _ => iaDict) k = some name →
      (stringifyKeys caDict iaDict raw)[i]? = some (.sym name, v)) ∧
    (∀ (i : Nat) k v, raw[i]? = some (k, v) →
      (match v with | .str _ => caDict | .int _ => iaDict) k = none →
      (stringifyKeys caDict iaDict raw)[i]? = some (.num k, v)) := by
  refine ⟨by simp [stringifyKeys], ?_, ?_⟩
  · intro i k v name hi hd
    simp only [stringifyKeys, List.getElem?_map, hi, Option.map_some']
    cases v <;> simp_all
  · intro i k v hi hd
    simp only [stringifyKeys, List.getElem?_map, hi, Option.map_some']
    cases v <;> simp_all

/-- C7 witness: a raw mapping mixing a known string-valued key (2001), a
known integer-valued key (1) and an unknown key (999) is decoded with the
known keys replaced and the unknown one preserved, with no failure. -/
theorem stringify_keys_spec_witness :
    (stringifyKeys caDictSample iaDictSample
      [(2001, .str [81]), (1, .int 3), (999, .int 5)]).length = 3 ∧
    (stringifyKeys caDictSample iaDictSample
      [(2001, .str [81]), (1, .int 3), (999, .int 5)])[0]? =
      some (.sym "MQCA_APPL_ID", .str [81]) ∧
    (stringifyKeys caDictSample iaDictSample
      [(2001, .str [81]), (1, .int 3), (999, .int 5)])[2]? =
      some (.num 999, .int 5) := by
  have h := stringify_keys_spec caDictSample iaDictSample
    [(2001, .str [81]), (1, .int 3), (999, .int 5)]
  exact ⟨h.1, h.2.1 0 2001 (.str [81]) "MQCA_APPL_ID" (by decide) (by decide),
    h.2.2 2 999 (.int 5) (by decide) (by decide)⟩

end Pymqi
